import Mathlib

/-!
Verification development for the rump upstream-selection engine: a shallow
embedding of its expression language, rule matching, upstream selection,
header-map construction and router connection logic, with theorems settling
the spec claims against the code.

Conventions: Python strings are Lean `String`s; Python `None` is a dedicated
constructor; Python integers are `Int`; exceptions are `Except` errors.
Python 2 semantics is modelled where it matters (cross-type ordering with
`None` smaller than every other value, `bool` as a subtype of `int`,
`~True = -2` and `~False = -1`).
-/

namespace Rump

/-! ### Regular expressions

The source compiles pattern strings with Python `re` and uses
`pattern.match(value)` (anchored at the start, `.` does not match a
newline).  Only the fragment of `re` exercised by the claims is modelled:
literal characters and `\d+`.  A compiled pattern also carries its
case-insensitive flag (`re.I`). -/

inductive RTok
| lit (c : Char)
| digitPlus
deriving DecidableEq, Repr

structure Rgx where
  toks : List RTok
  ci : Bool
deriving DecidableEq, Repr

/-- The `pattern` attribute of a compiled regex: the source text it was
compiled from. -/
def rtokStr : RTok → String
| .lit c => String.singleton c
| .digitPlus => "\\d+"

def rgxPattern (r : Rgx) : String :=
  String.join (r.toks.map rtokStr)

mutual

/-- Anchored match of a token list against input characters (the semantics of
`re.match` for the modelled fragment): succeeds as soon as the whole pattern
is consumed, the input may have a remainder.  The `fuel` argument only keeps
the recursion structural; every step consumes a token or a character, so the
generous budget supplied by `rgxMatchToks` is never exhausted. -/
def rgxRun : Nat → List RTok → List Char → Bool
| 0, _, _ => false
| _ + 1, [], _ => true
| fuel + 1, .lit c :: ts, xs =>
    match xs with
    | x :: rest => x = c && rgxRun fuel ts rest
    | [] => false
| fuel + 1, .digitPlus :: ts, xs =>
    match xs with
    | x :: rest => x.isDigit && rgxRunPlus fuel ts rest
    | [] => false

/-- After `\d+` has consumed one digit: either continue with the rest of the
pattern or consume further digits (backtracking on failure). -/
def rgxRunPlus : Nat → List RTok → List Char → Bool
| 0, _, _ => false
| fuel + 1, ts, xs =>
    rgxRun fuel ts xs ||
      (match xs with
       | y :: ys => y.isDigit && rgxRunPlus fuel ts ys
       | [] => false)

end

def rgxMatchToks (ts : List RTok) (xs : List Char) : Bool :=
  rgxRun (ts.length + 2 * xs.length + 2) ts xs

def rtokLower : RTok → RTok
| .lit c => .lit c.toLower
| .digitPlus => .digitPlus

/-- `pattern.match(s) is not None` for a compiled pattern; the `re.I` flag is
modelled by case-folding both sides. -/
def rgxMatch (r : Rgx) (s : String) : Bool :=
  if r.ci then rgxMatchToks (r.toks.map rtokLower) (s.toList.map Char.toLower)
  else rgxMatchToks r.toks s.toList

/-! ### Values and literals

`Value` is the universe of request-field values the engine manipulates
(string hashes are the `headers`/`query` maps).  `Lit` is the universe of
literals a `FieldOp` can carry (built by the DSL parser): `null`, strings,
ints, bools, lists of literals and compiled regexes. -/

inductive Value
| none
| vstr (s : String)
| vint (n : Int)
| vbool (b : Bool)
| vdict (kvs : List (String × String))
deriving DecidableEq, Repr

inductive Lit
| null
| lstr (s : String)
| lint (n : Int)
| lbool (b : Bool)
| llist (ls : List Lit)
| lrgx (r : Rgx)
deriving Repr

/-- Python `literal is None`: identity with the `None` singleton. -/
def Lit.isNull : Lit → Bool
| .null => true
| _ => false

/-- Python truthiness of a value (`if value:`). -/
def pyTruthy : Value → Bool
| .none => false
| .vstr s => s ≠ ""
| .vint n => n ≠ 0
| .vbool b => b
| .vdict kvs => kvs ≠ []

/-! ### Python 2 comparison semantics between a field value and a literal.

In CPython 2, `==` between values of different types is `False` (no error),
`bool` compares as the integer 0/1, and the default `<` order puts `None`
below everything, numbers below every non-number, and remaining types in
type-name order. `cmpRankV`/`cmpRankL` encode that type order for the value
and literal universes (`SRE_Pattern` sorts between numbers and `dict`). -/

def pyEqVL : Value → Lit → Bool
| .vint n, .lint m => n == m
| .vint n, .lbool b => n == (if b then 1 else 0)
| .vbool a, .lint m => (if a then (1 : Int) else 0) == m
| .vbool a, .lbool b => a == b
| .vstr s, .lstr t => s == t
| .none, .null => true
| _, _ => false

def cmpRankV : Value → Nat
| .none => 0
| .vint _ => 1
| .vbool _ => 1
| .vdict _ => 3
| .vstr _ => 5

def cmpRankL : Lit → Nat
| .null => 0
| .lint _ => 1
| .lbool _ => 1
| .lrgx _ => 2
| .llist _ => 4
| .lstr _ => 5

def litNum : Lit → Int
| .lint n => n
| .lbool b => if b then 1 else 0
| _ => 0

def valNum : Value → Int
| .vint n => n
| .vbool b => if b then 1 else 0
| _ => 0

/-- `value < literal` under Python 2's default ordering. Same-rank structured
cases (which no parser-built expression reaches) compare as not-less. -/
def pyLtVL (v : Value) (l : Lit) : Bool :=
  if cmpRankV v ≠ cmpRankL l then cmpRankV v < cmpRankL l
  else
    match v, l with
    | .vstr s, .lstr t => s < t
    | .vint _, _ => valNum v < litNum l
    | .vbool _, _ => valNum v < litNum l
    | _, _ => false

/-- `value <= literal`: Python 2's total order makes this `<` or `==`. -/
def pyLeVL (v : Value) (l : Lit) : Bool :=
  pyLtVL v l || pyEqVL v l

/-- `value > literal`: neither `<` nor `==` in the total order. -/
def pyGtVL (v : Value) (l : Lit) : Bool :=
  !pyLtVL v l && !pyEqVL v l

/-- `value >= literal`: not `<`. -/
def pyGeVL (v : Value) (l : Lit) : Bool :=
  !pyLtVL v l

/-! ### Exceptions -/

/-- Built-in Python exceptions that evaluation can raise; all of these are
`StandardError` subclasses in Python 2. `syntaxError` stands for the
`SyntaxError` raised when `compile()` is handed invalid generated source. -/
inductive PyErr
| typeError
| attributeError
| syntaxError
deriving DecidableEq, Repr

/-- Python `needle in haystack` for strings: the substring test. -/
def pySubstr (needle hay : String) : Bool :=
  hay.toList.tails.any (fun t => needle.toList.isPrefixOf t)

/-- Python `x in container` where the member is a field value and the
container is a literal (the `FieldIn` shape `value in self.literal`).
Membership in a list uses `==` element-wise; membership in a string is the
substring test; anything else is not iterable (`TypeError`). -/
def pyInVL (v : Value) : Lit → Except PyErr Bool
| .llist xs => .ok (xs.any (fun x => pyEqVL v x))
| .lstr t =>
    match v with
    | .vstr s => .ok (pySubstr s t)
    | _ => .error .typeError
| _ => .error .typeError

/-- Python `x in container` where the member is a literal and the container
is a field value (the `FieldContains` shape `self.literal in value`).
A string container is the substring test, a dict container is key
membership, `None` and the rest are not iterable. -/
def pyInLV (l : Lit) : Value → Except PyErr Bool
| .vstr s =>
    match l with
    | .lstr t => .ok (pySubstr t s)
    | _ => .error .typeError
| .vdict kvs =>
    .ok (match l with
         | .lstr t => kvs.any (fun kv => kv.1 == t)
         | _ => false)
| _ => .error .typeError

/-! ### Fields and the expression AST

A `FieldRef` is either a schema field (addressed by its name) or a subfield
of a map-valued field (`SubField` in the source, path `field.name`).  A
request is modelled extensionally as the map from field names to the values
their resolvers produce (`field.__get__(request)`), with subfield access
composing through the parent's hash value exactly as `SubField.__get__`
does: a missing parent or member yields `None`. -/

inductive FieldRef
| top (name : String)
| sub (parent : String) (member : String)
deriving DecidableEq, Repr

def getField (req : String → Value) : FieldRef → Value
| .top n => req n
| .sub p m =>
    match req p with
    | .vdict kvs =>
        match kvs.lookup m with
        | some s => .vstr s
        | Option.none => .none
    | _ => .none

/-- The `FieldOp` variants of the expression language (`FieldEqual`,
`FieldNotEqual`, `FieldLessThan`, ..., `FieldMatch`, `FieldIn`,
`FieldContains`). -/
inductive FieldKind
| eq
| ne
| lt
| le
| gt
| ge
| startswith
| endswith
| rmatch
| inOp
| contains
deriving DecidableEq, Repr

/-- Expression AST: `And`/`Or` (`BoolOp`s, precedence 10 and 5) and field
operations carrying the inverted flag, the field reference and the literal. -/
inductive Exp
| And (lhs rhs : Exp)
| Or (lhs rhs : Exp)
| fop (k : FieldKind) (inv : Bool) (f : FieldRef) (l : Lit)
deriving Repr

/-- `isinstance(e, BoolOp)`. -/
def Exp.isBoolOp : Exp → Bool
| .And _ _ => true
| .Or _ _ => true
| .fop .. => false

/-- `BoolOp.precedence` (`And` 10, `Or` 5; `FieldOp`s have none and never
satisfy the parenthesisation test, which first checks `isinstance(lhs,
BoolOp)`). -/
def Exp.prec : Exp → Nat
| .And _ _ => 10
| .Or _ _ => 5
| .fop .. => 0

/-! ### Printing (`__str__`) -/

/-- `Expression._field_literal`: the dotted path of a field or subfield. -/
def fieldStr : FieldRef → String
| .top n => n
| .sub p m => p ++ "." ++ m

/-- Python `s.replace('"', '\\"')`: escape every double quote. -/
def escQuotes (s : String) : String :=
  String.mk (s.toList.foldr
    (fun c acc => if c = '"' then '\\' :: '"' :: acc else c :: acc) [])

mutual

/-- `Expression._str_literal`.  `None` prints as `null`, strings are
double-quoted with inner quotes escaped, ints print decimally, and a bool —
being an `int` in Python 2 — takes the `int` branch and prints as
`True`/`False`.  (`_str_literal` is never reached with a regex: `FieldMatch`
prints its pattern itself; the placeholder case keeps the function total.) -/
def litStr : Lit → String
| .null => "null"
| .lstr s => "\"" ++ escQuotes s ++ "\""
| .lint n => toString n
| .lbool b => if b then "True" else "False"
| .llist ls => "[" ++ ", ".intercalate (litStrList ls) ++ "]"
| .lrgx r => rgxPattern r

def litStrList : List Lit → List String
| [] => []
| l :: ls => litStr l :: litStrList ls

end

/-- `str()` of a literal as Python renders the bare object — used by
`FieldContains.__str__`, which interpolates the literal raw (unquoted).
In the source a contains-literal is always a string. -/
def rawLitStr : Lit → String
| .lstr s => s
| .lint n => toString n
| .lbool b => if b then "True" else "False"
| .null => "None"
| .llist ls => "[" ++ ", ".intercalate (litStrList ls) ++ "]"
| .lrgx r => rgxPattern r

/-- The operator name of each `FieldOp` class (its `name` attribute). -/
def FieldKind.opName : FieldKind → String
| .eq => "="
| .ne => "!="
| .lt => "<"
| .le => "<="
| .gt => ">"
| .ge => ">="
| .startswith => "startswith"
| .endswith => "endswith"
| .rmatch => "~"
| .inOp => "in"
| .contains => "in"

/-- `__str__` of one `FieldOp` node, following each class's override:
`FieldEqual`/`FieldNotEqual` ignore the inverted flag, `FieldMatch` prints
`!` and the `*` case-insensitive marker and wraps the raw pattern in quotes,
`FieldIn` prints a `not ` prefix before `in`, `FieldContains` prints the raw
literal first, and the remaining kinds use the generic `FieldOp.__str__`. -/
def fopStr (k : FieldKind) (inv : Bool) (f : FieldRef) (l : Lit) : String :=
  match k with
  | .eq => fieldStr f ++ " = " ++ litStr l
  | .ne => fieldStr f ++ " != " ++ litStr l
  | .rmatch =>
      let ci := match l with
                | .lrgx r => r.ci
                | _ => false
      let pat := match l with
                 | .lrgx r => rgxPattern r
                 | _ => litStr l
      fieldStr f ++ " " ++ (if inv then "!" else "") ++ "~" ++
        (if ci then "*" else "") ++ " \"" ++ pat ++ "\""
  | .inOp => fieldStr f ++ " " ++ (if inv then "not " else "") ++ "in " ++ litStr l
  | .contains => rawLitStr l ++ " " ++ (if inv then "not " else "") ++ "in " ++ fieldStr f
  | _ => (if inv then "not " else "") ++ fieldStr f ++ " " ++ k.opName ++ " " ++ litStr l

/-- `__str__` of an expression.  `BoolOp.__str__` parenthesises the *left*
child when it is a `BoolOp` of strictly lower precedence; the right child is
interpolated as-is, never parenthesised. -/
def expStr : Exp → String
| .And l r =>
    (if l.isBoolOp && decide (l.prec < 10) then "(" ++ expStr l ++ ")" else expStr l)
      ++ " and " ++ expStr r
| .Or l r =>
    (if l.isBoolOp && decide (l.prec < 5) then "(" ++ expStr l ++ ")" else expStr l)
      ++ " or " ++ expStr r
| .fop k inv f l => fopStr k inv f l

/-- `Expression.__eq__`: structural equality implemented as equality of the
canonical printed forms. -/
def expEq (a b : Exp) : Bool :=
  expStr a == expStr b

/-- `Expression.__ne__` returns `~self.__eq__(other)`: the bitwise complement
of a Python bool, i.e. the int `-2` when equal and `-1` when different. -/
def expNe (a b : Exp) : Int :=
  if expEq a b then -2 else -1

/-! ### Evaluation (`__call__` / `_evaluate_for`) -/

/-- `_evaluate_for(value)` of each `FieldOp` class, given the literal and the
resolved field value.  Every class returns its `default` when the value is
`None` (`False`, except `FieldNotEqual` whose check is `literal is not None`
and `FieldEqual` whose check is `literal is None`); otherwise the class's
comparison runs under Python 2 semantics. -/
def evalFor : FieldKind → Lit → Value → Except PyErr Bool
| .eq, l, .none => .ok l.isNull
| .eq, l, v => .ok (pyEqVL v l)
| .ne, l, .none => .ok (!l.isNull)
| .ne, l, v => .ok (!pyEqVL v l)
| .lt, _, .none => .ok false
| .lt, l, v => .ok (pyLtVL v l)
| .le, _, .none => .ok false
| .le, l, v => .ok (pyLeVL v l)
| .gt, _, .none => .ok false
| .gt, l, v => .ok (pyGtVL v l)
| .ge, _, .none => .ok false
| .ge, l, v => .ok (pyGeVL v l)
| .startswith, _, .none => .ok false
| .startswith, .lstr t, .vstr s => .ok (s.startsWith t)
| .startswith, _, .vstr _ => .error .typeError
| .startswith, _, _ => .error .attributeError
| .endswith, _, .none => .ok false
| .endswith, .lstr t, .vstr s => .ok (s.endsWith t)
| .endswith, _, .vstr _ => .error .typeError
| .endswith, _, _ => .error .attributeError
| .rmatch, _, .none => .ok false
| .rmatch, .lrgx r, .vstr s => .ok (rgxMatch r s)
| .rmatch, .lrgx _, _ => .error .typeError
| .rmatch, _, _ => .error .attributeError
| .inOp, _, .none => .ok false
| .inOp, l, v => pyInVL v l
| .contains, _, .none => .ok false
| .contains, l, v => pyInLV l v

/-- `Expression.__call__`: `And`/`Or` short-circuit over their children, a
`FieldOp` resolves its field, runs `_evaluate_for` and applies the inverted
flag. -/
def evalExp (req : String → Value) : Exp → Except PyErr Bool
| .And l r => do
    let a ← evalExp req l
    if a then evalExp req r else pure false
| .Or l r => do
    let a ← evalExp req l
    if a then pure true else evalExp req r
| .fop k inv f lit => do
    let b ← evalFor k lit (getField req f)
    pure (if inv then !b else b)

/-! ### Upstream -/

/-- A `Selection`: a `(protocol, location)` server and an integer weight. -/
structure Selection where
  server : String × String
  weight : Int
deriving DecidableEq, Repr

/-- `Upstream`: the selections plus the two derived attributes `total` and
`uniform`, which `__init__` computes once (`total = sum of weights`,
`uniform = len(set(weights)) == 1`). -/
structure Upstream where
  selections : List Selection
  total : Int
  uniform : Bool
deriving DecidableEq, Repr

/-- `Upstream.__init__` on a list of selections. -/
def mkUpstream (ss : List Selection) : Upstream :=
  { selections := ss
    total := (ss.map (fun s => s.weight)).sum
    uniform := (ss.map (fun s => s.weight)).dedup.length == 1 }

/-- Python `list.insert` (clamping an out-of-range index to the end). -/
def listInsert {α : Type} : Nat → α → List α → List α
| _, x, [] => [x]
| 0, x, l => x :: l
| n + 1, x, y :: l => y :: listInsert n x l

/-- `Upstream.insert` delegates to `self.selections.insert` and touches
nothing else: `total` and `uniform` are not recomputed. -/
def Upstream.insertSel (u : Upstream) (i : Nat) (s : Selection) : Upstream :=
  { u with selections := listInsert i s u.selections }

/-- `Upstream.__setitem__`: writes through to the selections list only. -/
def Upstream.setSel (u : Upstream) (i : Nat) (s : Selection) : Upstream :=
  { u with selections := u.selections.set i s }

/-- `Upstream.__delitem__`: deletes from the selections list only. -/
def Upstream.delSel (u : Upstream) (i : Nat) : Upstream :=
  { u with selections := u.selections.eraseIdx i }

/-- `Upstream.__str__`: space-joined `proto://location,weight` entries. -/
def upstreamStr (u : Upstream) : String :=
  " ".intercalate
    (u.selections.map (fun s => s.server.1 ++ "://" ++ s.server.2 ++ "," ++ toString s.weight))

/-- The uniform branch of `Upstream.__call__`: `random.choice(self).server`,
with the uniformly drawn index made explicit. -/
def Upstream.selectUniform (u : Upstream) (i : Nat) : Option (String × String) :=
  (u.selections.get? i).map (fun s => s.server)

/-- The weighted loop of `Upstream.__call__`: walk the selections
accumulating `offset`, returning the first server with
`choice < offset + weight`; falling off the end corresponds to the
`raise Exception(... has no upstream ...)` branch, modelled as `none`. -/
def selectLoop : List Selection → Int → Int → Option (String × String)
| [], _, _ => Option.none
| s :: rest, offset, choice =>
    if choice < offset + s.weight then some s.server
    else selectLoop rest (offset + s.weight) choice

/-- The non-uniform branch of `Upstream.__call__`, with the draw
`choice = random.randint(0, total - 1)` made explicit. -/
def Upstream.selectWeighted (u : Upstream) (choice : Int) : Option (String × String) :=
  selectLoop u.selections 0 choice

/-! ### Rule and CompiledRule -/

/-- `Rule`: an expression and the upstream returned on a match. -/
structure SRule where
  exp : Exp
  upstream : Upstream

/-- `Rule.match`: evaluate the expression; return the upstream when it is
true, else `None`. -/
def ruleMatch (r : SRule) (req : String → Value) : Except PyErr (Option Upstream) := do
  let b ← evalExp req r.exp
  pure (if b then some r.upstream else Option.none)

/-- Python `not` applied to a value: the negated truthiness as a bool. -/
def pyNotV (v : Value) : Value :=
  .vbool (!pyTruthy v)

/-- The `{inv}`/`not ` prefix the compile methods emit. -/
def applyInv (inv : Bool) (v : Value) : Value :=
  if inv then pyNotV v else v

/-- Evaluation of the code snippet `FieldOp.compile` generates for one field
operation, as Python `eval` runs it against the request context
(`request[field]` resolves the field, `literal_...` is the interned
literal).  Mirrors each class's `compile` override:

* the generic `FieldOp.compile` (`<`, `<=`, `>`, `>=`, `FieldIn`) emits
  `{inv}request[f] OP literal` with **no** `None` guard, so `None` flows
  into Python 2's cross-type comparison;
* `FieldEqual` emits `request[f] is None` for a null literal (with the
  inverted flag this would generate the ill-formed `not is`, a
  `SyntaxError` at compile time) and `{inv}request[f] == literal` otherwise;
* `FieldNotEqual` ignores the inverted flag and emits `is not None` /
  `!= literal`;
* `FieldStartswith`/`FieldEndswith` emit
  `{inv}(request[f] and request[f].NAME(literal))`, whose value is the raw
  falsy field value when the guard fails;
* `FieldMatch` emits `{inv}(request[f] is not None and
  request[f].match(literal))` — the method is looked up on the *value*, so
  any non-`None` value (a `str` has no `.match`) raises `AttributeError`;
* `FieldContains` emits `literal {inv}in request[f]` with no `None` guard
  (`x in None` raises `TypeError`). -/
def compiledFopEval (k : FieldKind) (inv : Bool) (f : FieldRef) (l : Lit)
    (req : String → Value) : Except PyErr Value :=
  let w := getField req f
  match k with
  | .lt => .ok (applyInv inv (.vbool (pyLtVL w l)))
  | .le => .ok (applyInv inv (.vbool (pyLeVL w l)))
  | .gt => .ok (applyInv inv (.vbool (pyGtVL w l)))
  | .ge => .ok (applyInv inv (.vbool (pyGeVL w l)))
  | .inOp => do
      let b ← pyInVL w l
      .ok (applyInv inv (.vbool b))
  | .eq =>
      if l.isNull then
        if inv then .error .syntaxError
        else .ok (.vbool (match w with | .none => true | _ => false))
      else .ok (applyInv inv (.vbool (pyEqVL w l)))
  | .ne =>
      if l.isNull then .ok (.vbool (match w with | .none => false | _ => true))
      else .ok (.vbool (!pyEqVL w l))
  | .startswith =>
      if !pyTruthy w then .ok (applyInv inv w)
      else
        match w, l with
        | .vstr s, .lstr t => .ok (applyInv inv (.vbool (s.startsWith t)))
        | .vstr _, _ => .error .typeError
        | _, _ => .error .attributeError
  | .endswith =>
      if !pyTruthy w then .ok (applyInv inv w)
      else
        match w, l with
        | .vstr s, .lstr t => .ok (applyInv inv (.vbool (s.endsWith t)))
        | .vstr _, _ => .error .typeError
        | _, _ => .error .attributeError
  | .rmatch =>
      match w with
      | .none => .ok (applyInv inv (.vbool false))
      | _ => .error .attributeError
  | .contains => do
      let b ← pyInLV l w
      .ok (applyInv inv (.vbool b))

/-- Truthiness of `matched` inside `CompiledRule.match`: the Python value
there is either `None` or the `Upstream` object, whose truthiness is
non-emptiness (`MutableSequence.__len__`). -/
def pyTruthyUp : Option Upstream → Bool
| Option.none => false
| some u => !u.selections.isEmpty

/-- `CompiledRule.match_context` for a rule whose expression is a single
`FieldOp` (for such a rule the generated source is exactly the node's
snippet): evaluate the compiled code and return
`self.upstream if matched else None`. -/
def compiledFopMatchContext (k : FieldKind) (inv : Bool) (f : FieldRef) (l : Lit)
    (up : Upstream) (req : String → Value) : Except PyErr (Option Upstream) := do
  let v ← compiledFopEval k inv f l req
  pure (if pyTruthy v then some up else Option.none)

/-- `CompiledRule.match` for a rule whose expression is a single `FieldOp`:
`matched = self.match_context(...)`, then once more
`self.upstream if matched else None`. -/
def compiledFopMatch (k : FieldKind) (inv : Bool) (f : FieldRef) (l : Lit)
    (up : Upstream) (req : String → Value) : Except PyErr (Option Upstream) := do
  let m ← compiledFopMatchContext k inv f l up req
  pure (if pyTruthyUp m then some up else Option.none)

/-! ### The headers map (`HeaderHash._munge`)

The field is a group over the pattern `HTTP\_(.+)`, matched with `re.match`
(anchored at the start, `.` excludes newlines), and the dict key is
`match.group(0).lower()` — group 0 is the **whole matched prefix**, i.e. the
environment key itself (up to a newline), `HTTP_` prefix included, not the
captured suffix. -/

/-- `re.match("HTTP\_(.+)", key)` and, on success, `match.group(0)`. -/
def headerKeyMatch (cs : List Char) : Option (List Char) :=
  match cs with
  | 'H' :: 'T' :: 'T' :: 'P' :: '_' :: rest =>
      let r := rest.takeWhile (fun c => c ≠ '\n')
      if r.isEmpty then Option.none
      else some ('H' :: 'T' :: 'T' :: 'P' :: '_' :: r)
  | _ => Option.none

/-- Python `key.lower()`: lower-case character by character. -/
def strLower (s : String) : String :=
  String.mk (s.toList.map Char.toLower)

/-- Build a Python dict from key/value pairs: a later binding of the same
key overwrites an earlier one. -/
def mkDict : List (String × String) → List (String × String) :=
  List.foldl (fun acc kv => (acc.filter (fun p => p.1 ≠ kv.1)) ++ [kv]) []

/-- `HeaderHash._munge`: collect every environment entry whose key matches
the pattern and map the lower-cased group 0 to the value. -/
def headerHash (env : List (String × String)) : List (String × String) :=
  mkDict (env.filterMap (fun kv =>
    (headerKeyMatch kv.1.toList).map (fun m => (strLower (String.mk m), kv.2))))

/-! ### Rules: first-match and the error policy (`Rules._match`)

For one fixed request, what matters about a rule inside the match loop is
the outcome of `self[i].match(request)` — a bool or a raised exception —
and its upstream.  `MRule` records exactly that.  Exceptions are split the
way the loop's `except` clauses split them: Python 2 `StandardError`
subclasses (which covers `TypeError`, `ValueError`, `AttributeError`, ...)
versus other `Exception`s. -/

inductive PyExc
| std
| nonStd
deriving DecidableEq, Repr

structure MRule where
  result : Except PyExc Bool
  upstream : Upstream

/-- The three values accepted for `Rules.match`'s `error` option. -/
inductive ErrMode
| raise
| disable
| suppress
deriving DecidableEq, Repr

/-- The default error mode:
`'suppress' if self.auto_disable is False else 'disable'`. -/
def defaultErrMode (autoDisable : Bool) : ErrMode :=
  if autoDisable then .disable else .suppress

/-- `Rules._match`'s loop, walking the rules from index `i` with the initial
disabled set `dis` (membership of the i-th rule) and the indices disabled so
far in this call accumulated in `acc`:

* a disabled rule is skipped;
* `upstream = self[i].match(request); if upstream:` returns the upstream —
  note the test is the *upstream's* truthiness, so a true expression with an
  empty upstream is passed over;
* `except StandardError: raise` re-raises such exceptions in every mode;
* other exceptions: `raise` propagates, `disable` adds the rule to
  `self.disabled` and moves on, `suppress` just moves on.

(Each index is visited once, so checking `acc` again is unnecessary; the
source's growing `self.disabled` could only re-hit a rule *object* aliased
at two indices.) -/
def rulesMatchAux (mode : ErrMode) (dis : Nat → Bool) :
    List MRule → Nat → List Nat → Except PyExc (Option Upstream × List Nat)
| [], _, acc => .ok (Option.none, acc)
| r :: rest, i, acc =>
    if dis i then rulesMatchAux mode dis rest (i + 1) acc
    else
      match r.result with
      | .ok true =>
          if r.upstream.selections.isEmpty then rulesMatchAux mode dis rest (i + 1) acc
          else .ok (some r.upstream, acc)
      | .ok false => rulesMatchAux mode dis rest (i + 1) acc
      | .error .std => .error .std
      | .error .nonStd =>
          match mode with
          | .raise => .error .nonStd
          | .disable => rulesMatchAux mode dis rest (i + 1) (acc ++ [i])
          | .suppress => rulesMatchAux mode dis rest (i + 1) acc

/-- `Rules._match(request, error)`: the result is the matched upstream (or
`None`) paired with the indices this call added to `self.disabled`; a
propagated exception is the `Except` error. -/
def rulesMatch (rs : List MRule) (dis : Nat → Bool) (mode : ErrMode) :
    Except PyExc (Option Upstream × List Nat) :=
  rulesMatchAux mode dis rs 0 []

/-- Whether a rule's evaluation succeeded (raised nothing). -/
def isOkResult : Except PyExc Bool → Bool
| .ok _ => true
| .error _ => false

/-- Whether a rule's evaluation raised a `StandardError`. -/
def isStdErr : Except PyExc Bool → Bool
| .error .std => true
| _ => false

/-- Modelled from the spec: the upstream of the earliest rule, from index
`i`, that is not disabled and whose expression evaluates true. -/
def specFirstMatch (dis : Nat → Bool) : List MRule → Nat → Option Upstream
| [], _ => Option.none
| r :: rest, i =>
    match dis i, r.result with
    | false, .ok true => some r.upstream
    | _, _ => specFirstMatch dis rest (i + 1)

/-- Modelled from the spec: the indices of the non-disabled rules whose
evaluation raises, among the rules visited before the first match. -/
def specErrsBefore (dis : Nat → Bool) : List MRule → Nat → List Nat
| [], _ => []
| r :: rest, i =>
    match dis i, r.result with
    | false, .ok true => []
    | false, .error _ => i :: specErrsBefore dis rest (i + 1)
    | _, _ => specErrsBefore dis rest (i + 1)

/-! ### Router connection state -/

/-- The observable behaviour of a `Dynamic` backend toward one router:
what `can_connect` and `is_connected` report. -/
structure DynState where
  canConnect : Bool
  connected : Bool
deriving DecidableEq, Repr

/-- The `Router` fields the connection-state checks read and the operations
may replace.  `payload` stands for the dynamic-tagged configuration slice
(`enabled`, `hosts`, `default_upstream`, `overrides`, ...). -/
structure Router (P : Type) where
  name : String
  dynamic : Option DynState
  payload : P

inductive RouterErr
| notDynamic
| notConnected
deriving DecidableEq, Repr

/-- `Router.is_dynamic`:
`self.dynamic is not None and self.dynamic.can_connect(self)`. -/
def Router.isDynamic {P : Type} (r : Router P) : Bool :=
  match r.dynamic with
  | some d => d.canConnect
  | Option.none => false

/-- `Router.is_connected`:
`self.is_dynamic and self.dynamic.is_connected(self)`. -/
def Router.isConnected {P : Type} (r : Router P) : Bool :=
  r.isDynamic &&
    (match r.dynamic with
     | some d => d.connected
     | Option.none => false)

/-- `Router.connect`: raise `RouterNotDynamic` unless `is_dynamic`, else run
the backend's connect effect (abstracted as `act`).  The result pairs the
raised exception (if any) with the router afterwards. -/
def Router.connect {P : Type} (act : Router P → Router P) (r : Router P) :
    Option RouterErr × Router P :=
  if r.isDynamic then (Option.none, act r) else (some .notDynamic, r)

/-- `Router.load`: raise `RouterNotConnected` unless `is_connected`, else
run the backend's load effect. -/
def Router.load {P : Type} (act : Router P → Router P) (r : Router P) :
    Option RouterErr × Router P :=
  if r.isConnected then (Option.none, act r) else (some .notConnected, r)

/-- `Router.save`: raise `RouterNotConnected` unless `is_connected`, else
run the backend's save effect (which does not alter the router). -/
def Router.save {P : Type} (r : Router P) : Option RouterErr × Router P :=
  if r.isConnected then (Option.none, r) else (some .notConnected, r)

/-- `Router.watch`: raise `RouterNotConnected` unless `is_connected`, else
register the callback with the backend (no field changes). -/
def Router.watch {P : Type} (r : Router P) : Option RouterErr × Router P :=
  if r.isConnected then (Option.none, r) else (some .notConnected, r)

instance {ε α : Type} [DecidableEq ε] [DecidableEq α] : DecidableEq (Except ε α) :=
  fun x y =>
    match x, y with
    | .ok a, .ok b =>
        if h : a = b then isTrue (by rw [h])
        else isFalse (fun hh => h (Except.ok.inj hh))
    | .error e, .error f =>
        if h : e = f then isTrue (by rw [h])
        else isFalse (fun hh => h (Except.error.inj hh))
    | .ok _, .error _ => isFalse (fun hh => Except.noConfusion hh)
    | .error _, .ok _ => isFalse (fun hh => Except.noConfusion hh)

/-! ### Concrete sample data used by counterexamples and witnesses -/

def expA : Exp := .fop .eq false (.top "method") (.lstr "GET")

def expB : Exp := .fop .startswith false (.top "path") (.lstr "/v1/")

def expC : Exp := .fop .eq false (.top "method") (.lstr "POST")

/-! ### Claim theorems -/

/-- Claim C10 (confirmed): for every pair of expression AST nodes, `e1 != e2`
yields a truthy value even when `e1 == e2` holds, because `Expression.__ne__`
returns the bitwise complement of the boolean equality result — the integer
`-2` when equal, `-1` when different, both non-zero — never the boolean
`False`; so `!=` on expressions can never establish equality. -/
theorem expNe_always_truthy (a b : Exp) :
    (expNe a b = -2 ∨ expNe a b = -1) ∧ expNe a b ≠ 0 ∧
    (expEq a b = true → expNe a b = -2) := by
  unfold expNe
  by_cases h : expEq a b <;> simp [h]

/-- Witness for C10 at a concrete pair of equal expressions. -/
theorem expNe_always_truthy_witness :
    expEq expA expA = true ∧ expNe expA expA = -2 ∧ expNe expA expA ≠ 0 :=
  ⟨by decide, (expNe_always_truthy expA expA).2.2 (by decide),
    (expNe_always_truthy expA expA).2.1⟩

/-- Claim C1 counterexample: printing `And(a, Or(b, c))` emits no parentheses
at all — the `Or` child on the right side of the `And` is not parenthesised
although precedence requires it — and the printed form coincides with that
of the structurally different `Or(And(a, b), c)`. -/
theorem andOr_print_missing_parens :
    expStr (.And expA (.Or expB expC)) =
      "method = \"GET\" and path startswith \"/v1/\" or method = \"POST\"" ∧
    (expStr (.And expA (.Or expB expC))).toList.all (fun c => c ≠ '(') = true ∧
    expStr (.And expA (.Or expB expC)) = expStr (.Or (.And expA expB) expC) ∧
    (Exp.And expA (.Or expB expC)) ≠ .Or (.And expA expB) expC :=
  ⟨by decide, by decide, by decide, fun h => Exp.noConfusion h⟩

/-- Claim C1 amended: `BoolOp.__str__` parenthesises only a left-hand
`BoolOp` child of strictly lower precedence and never the right child, so
for all `a`, `b`, `c` the printed forms of `And(a, Or(b, c))` and
`Or(And(a, b), c)` coincide while the trees differ; consequently no parse
function can structurally round-trip both, and the code's round-trip
equality holds only in the sense of its string-based `__eq__`, under which
the two distinct trees already count as equal. -/
theorem boolop_print_collapses (a b c : Exp) (p : String → Option Exp) :
    expStr (.And a (.Or b c)) = expStr (.Or (.And a b) c) ∧
    (Exp.And a (.Or b c)) ≠ .Or (.And a b) c ∧
    expEq (.And a (.Or b c)) (.Or (.And a b) c) = true ∧
    ¬(p (expStr (.And a (.Or b c))) = some (.And a (.Or b c)) ∧
      p (expStr (.Or (.And a b) c)) = some (.Or (.And a b) c)) := by
  have hstr : expStr (.And a (.Or b c)) = expStr (.Or (.And a b) c) := by
    cases a <;> cases b <;>
      simp [expStr, Exp.isBoolOp, Exp.prec, String.append_assoc]
  refine ⟨hstr, fun h => Exp.noConfusion h, ?_, ?_⟩
  · simp [expEq, hstr]
  · rintro ⟨h1, h2⟩
    rw [← hstr, h1] at h2
    have := Option.some.inj h2
    exact Exp.noConfusion this

/-- Witness for C1's amended theorem at concrete subtrees and a concrete
parse function. -/
theorem boolop_print_collapses_witness :
    expStr (.And expA (.Or expB expC)) = expStr (.Or (.And expA expB) expC) ∧
    expEq (.And expA (.Or expB expC)) (.Or (.And expA expB) expC) = true :=
  ⟨(boolop_print_collapses expA expB expC (fun _ => Option.none)).1,
   (boolop_print_collapses expA expB expC (fun _ => Option.none)).2.2.1⟩

/-- Claim C6 (confirmed): when the field value resolves to `None`, every
`FieldOp` returns its node-specific default: `False` for `<`, `<=`, `>`,
`>=`, `startswith`, `endswith`, `match` (`~`), `in` and contains; `!=`
is true exactly when the literal is non-null; `=` is true exactly when the
literal is also null (`null == null`). -/
theorem fieldop_null_defaults (l : Lit) :
    evalFor .lt l .none = .ok false ∧
    evalFor .le l .none = .ok false ∧
    evalFor .gt l .none = .ok false ∧
    evalFor .ge l .none = .ok false ∧
    evalFor .startswith l .none = .ok false ∧
    evalFor .endswith l .none = .ok false ∧
    evalFor .rmatch l .none = .ok false ∧
    evalFor .inOp l .none = .ok false ∧
    evalFor .contains l .none = .ok false ∧
    evalFor .ne l .none = .ok (!l.isNull) ∧
    evalFor .eq l .none = .ok l.isNull := by
  cases l <;>
    exact ⟨rfl, rfl, rfl, rfl, rfl, rfl, rfl, rfl, rfl, rfl, rfl⟩

/-! Sample data for the headers claim: the environment
`{HTTP_X_TEST: "v123"}`, a request resolving the `headers` field through
`HeaderHash._munge`, the pattern `v\d+` and the upstream `http://p,1`. -/

def envXTest : List (String × String) := [("HTTP_X_TEST", "v123")]

def reqOfEnvHeaders (env : List (String × String)) : String → Value :=
  fun n => if n = "headers" then .vdict (headerHash env) else .none

def rgxVDigits : Rgx := ⟨[.lit 'v', .digitPlus], false⟩

def upP : Upstream := mkUpstream [⟨("http", "p"), 1⟩]

def ruleHeadersXTest : SRule :=
  ⟨.fop .rmatch false (.sub "headers" "x_test") (.lrgx rgxVDigits), upP⟩

def ruleHeadersHttpXTest : SRule :=
  ⟨.fop .rmatch false (.sub "headers" "http_x_test") (.lrgx rgxVDigits), upP⟩

/-- Claim C4 counterexample: `HeaderHash._munge` keys the map by
`match.group(0).lower()` — the lower-cased *whole* key, `http_` prefix
included — not by the captured suffix.  For the environment
`{HTTP_X_TEST: "v123"}` the map is `{http_x_test: "v123"}`, the subfield
`headers.x_test` resolves to `None`, and the rule
`headers.x_test ~ "v\d+" => p` does not match (the claim predicts
`http://p,1`). -/
theorem headers_suffix_key_counterexample :
    headerHash envXTest = [("http_x_test", "v123")] ∧
    getField (reqOfEnvHeaders envXTest) (.sub "headers" "x_test") = Value.none ∧
    ruleMatch ruleHeadersXTest (reqOfEnvHeaders envXTest) = .ok Option.none ∧
    Except.ok (Option.none : Option Upstream) ≠ (.ok (some upP) : Except PyErr (Option Upstream)) := by
  refine ⟨by decide, by decide, by decide, by decide⟩

/-- Claim C4 amended: the headers map key is the lower-cased full
environment key (the pattern's group 0), so any matching key `HTTP_<s>`
(non-empty `s`, no newline) is stored under `("http_" ++ s).lower()`; on the
environment `{HTTP_X_TEST: "v123"}` the subfield `headers.http_x_test`
equals `"v123"` and the rule `headers.http_x_test ~ "v\d+" => p` matches,
yielding `http://p,1`. -/
theorem headers_full_key_lowercased (s : List Char) (v : String)
    (h1 : s ≠ []) (h2 : ∀ c ∈ s, c ≠ '\n') :
    headerHash [(String.mk ('H' :: 'T' :: 'T' :: 'P' :: '_' :: s), v)] =
      [(strLower (String.mk ('H' :: 'T' :: 'T' :: 'P' :: '_' :: s)), v)] ∧
    getField (reqOfEnvHeaders envXTest) (.sub "headers" "http_x_test") = .vstr "v123" ∧
    ruleMatch ruleHeadersHttpXTest (reqOfEnvHeaders envXTest) = .ok (some upP) ∧
    upstreamStr upP = "http://p,1" := by
  have htw : s.takeWhile (fun c => c ≠ '\n') = s := by
    refine List.takeWhile_eq_self_iff.mpr ?_
    intro c hc
    simpa using h2 c hc
  refine ⟨?_, by decide, by decide, by decide⟩
  simp only [headerHash, List.filterMap, headerKeyMatch, String.toList, htw]
  rw [if_neg (by simpa using h1)]
  rfl

/-- Witness for C4's amended theorem at the concrete key `HTTP_X_TEST`. -/
theorem headers_full_key_lowercased_witness :
    headerHash [(String.mk ('H' :: 'T' :: 'T' :: 'P' :: '_' :: ['X', '_', 'T', 'E', 'S', 'T']), "v123")] =
      [(strLower (String.mk ('H' :: 'T' :: 'T' :: 'P' :: '_' :: ['X', '_', 'T', 'E', 'S', 'T'])), "v123")] ∧
    ruleMatch ruleHeadersHttpXTest (reqOfEnvHeaders envXTest) = .ok (some upP) :=
  ⟨(headers_full_key_lowercased ['X', '_', 'T', 'E', 'S', 'T'] "v123"
      (by decide) (by decide)).1,
   (headers_full_key_lowercased ['X', '_', 'T', 'E', 'S', 'T'] "v123"
      (by decide) (by decide)).2.2.1⟩

/-! Sample data for the compile-equivalence claim: the rule
`content_length < 10 => http://prod,1` and a request whose environment has
no `CONTENT_LENGTH`, so the field resolves to `None`. -/

def upProd : Upstream := mkUpstream [⟨("http", "prod"), 1⟩]

def reqNoContentLength : String → Value := fun _ => Value.none

def ruleContentLengthLt : SRule :=
  ⟨.fop .lt false (.top "content_length") (.lint 10), upProd⟩

/-- Claim C2 (code bug): `Rule.compile`'s docstring promises "the equivalent
compiled rule", but the generic `FieldOp.compile` emits no `None` guard.  On
the rule `content_length < 10 => http://prod,1` and a request without
`CONTENT_LENGTH`, the uncompiled `Rule.match` returns `None`
(`FieldLessThan`'s null default is `False`) while the compiled form
evaluates Python 2's `None < 10`, which is `True`, and returns the
upstream. -/
theorem compiled_lt_null_divergence :
    ruleMatch ruleContentLengthLt reqNoContentLength = .ok Option.none ∧
    compiledFopMatch .lt false (.top "content_length") (.lint 10) upProd
      reqNoContentLength = .ok (some upProd) ∧
    (Option.none : Option Upstream) ≠ some upProd := by
  refine ⟨by decide, by decide, by simp⟩

/-! Upstream claims. -/

/-- A list whose deduplication has length one is a list of one repeated
value, and conversely (for non-empty lists). -/
theorem dedup_length_one_iff {L : List Int} (h : L ≠ []) :
    L.dedup.length = 1 ↔ ∀ a ∈ L, ∀ b ∈ L, a = b := by
  constructor
  · intro hd a ha b hb
    obtain ⟨x, hx⟩ := List.length_eq_one.mp hd
    have ha2 : a ∈ L.dedup := List.mem_dedup.mpr ha
    have hb2 : b ∈ L.dedup := List.mem_dedup.mpr hb
    rw [hx] at ha2 hb2
    simp only [List.mem_singleton] at ha2 hb2
    rw [ha2, hb2]
  · intro hall
    obtain ⟨c, hc⟩ : ∃ c, c ∈ L := by
      cases L with
      | nil => exact absurd rfl h
      | cons x xs => exact ⟨x, List.mem_cons_self x xs⟩
    have hm : ∀ x ∈ L.dedup, x = c :=
      fun x hx => hall x (List.mem_dedup.mp hx) c hc
    have hcd : c ∈ L.dedup := List.mem_dedup.mpr hc
    have hnd : L.dedup.Nodup := L.nodup_dedup
    cases hdd : L.dedup with
    | nil => rw [hdd] at hcd; cases hcd
    | cons y ys =>
        cases ys with
        | nil => rfl
        | cons z zs =>
            rw [hdd] at hm hnd
            have hy : y = c := hm y (by simp)
            have hz : z = c := hm z (by simp)
            have : y ≠ z := by
              have := List.nodup_cons.mp hnd
              intro hyz
              exact this.1 (hyz ▸ List.mem_cons_self z zs)
            exact absurd (hy.trans hz.symm) this

def ssA1 : List Selection := [⟨("http", "a"), 1⟩]

def ssA1B3 : Upstream := (mkUpstream ssA1).insertSel 1 ⟨("http", "b"), 3⟩

/-- Claim C8 counterexample: `Upstream.insert` (like `__setitem__` and
`__delitem__`) writes only to `selections`; after inserting a weight-3
selection into `http://a,1` the weights sum to 4 and are no longer uniform,
yet `total` is still 1 and `uniform` still `True`. -/
theorem upstream_mutation_stale_derived :
    ssA1B3.selections = [⟨("http", "a"), 1⟩, ⟨("http", "b"), 3⟩] ∧
    (ssA1B3.selections.map (fun s => s.weight)).sum = 4 ∧
    ssA1B3.total = 1 ∧
    ssA1B3.uniform = true ∧
    ssA1B3.total ≠ (ssA1B3.selections.map (fun s => s.weight)).sum := by
  refine ⟨by decide, by decide, by decide, by decide, by decide⟩

/-- Claim C8 amended: the derived values are computed by `__init__` only.
After construction, `total` is the sum of the weights, `uniform` holds iff
all selections share a single weight, and `total ≥ 1` for a non-empty
upstream with weights `≥ 1`; the mutable-sequence operations `insert`,
`__setitem__` and `__delitem__` change `selections` alone and do not
recompute `total` or `uniform`. -/
theorem upstream_init_derived (ss : List Selection) (i : Nat) (x : Selection)
    (h1 : ss ≠ []) (h2 : ∀ s ∈ ss, 1 ≤ s.weight) :
    (mkUpstream ss).total = (ss.map (fun s => s.weight)).sum ∧
    ((mkUpstream ss).uniform = true ↔ ∀ s ∈ ss, ∀ t ∈ ss, s.weight = t.weight) ∧
    1 ≤ (mkUpstream ss).total ∧
    ((mkUpstream ss).insertSel i x).selections = listInsert i x ss ∧
    ((mkUpstream ss).insertSel i x).total = (mkUpstream ss).total ∧
    ((mkUpstream ss).insertSel i x).uniform = (mkUpstream ss).uniform ∧
    ((mkUpstream ss).setSel i x).total = (mkUpstream ss).total ∧
    ((mkUpstream ss).delSel i).total = (mkUpstream ss).total := by
  have hmap : ss.map (fun s => s.weight) ≠ [] := by
    intro hm
    exact h1 (List.map_eq_nil_iff.mp hm)
  refine ⟨rfl, ?_, ?_, rfl, rfl, rfl, rfl, rfl⟩
  · have hbeq : ((mkUpstream ss).uniform = true) ↔
        (ss.map (fun s => s.weight)).dedup.length = 1 := by
      simp [mkUpstream, Nat.beq_eq_true_eq]
    rw [hbeq, dedup_length_one_iff hmap]
    constructor
    · intro hall s hs t ht
      exact hall s.weight (List.mem_map_of_mem _ hs) t.weight (List.mem_map_of_mem _ ht)
    · intro hall a ha b hb
      obtain ⟨s, hs, rfl⟩ := List.mem_map.mp ha
      obtain ⟨t, ht, rfl⟩ := List.mem_map.mp hb
      exact hall s hs t ht
  · cases ss with
    | nil => exact absurd rfl h1
    | cons s rest =>
        have hs : 1 ≤ s.weight := h2 s (List.mem_cons_self s rest)
        have hrest : 0 ≤ (rest.map (fun s => s.weight)).sum := by
          refine List.sum_nonneg ?_
          intro a ha
          obtain ⟨t, ht, rfl⟩ := List.mem_map.mp ha
          exact le_trans (by norm_num) (h2 t (List.mem_cons_of_mem s ht))
        show 1 ≤ ((s :: rest).map (fun s => s.weight)).sum
        rw [List.map_cons, List.sum_cons]
        omega

/-- Witness for C8's amended theorem at a concrete uniform upstream. -/
theorem upstream_init_derived_witness :
    (mkUpstream [⟨("http", "u"), 2⟩, ⟨("http", "w"), 2⟩]).total = 4 ∧
    (mkUpstream [⟨("http", "u"), 2⟩, ⟨("http", "w"), 2⟩]).uniform = true ∧
    ((mkUpstream [⟨("http", "u"), 2⟩, ⟨("http", "w"), 2⟩]).insertSel 0 ⟨("http", "z"), 7⟩).total = 4 := by
  have h := upstream_init_derived [⟨("http", "u"), 2⟩, ⟨("http", "w"), 2⟩] 0 ⟨("http", "z"), 7⟩
    (by decide) (by intro s hs; fin_cases hs <;> decide)
  exact ⟨h.1.trans (by decide), h.2.1.mpr (by intro s hs t ht; fin_cases hs <;> fin_cases ht <;> rfl),
    h.2.2.2.2.2.2.1.trans (h.1.trans (by decide))⟩

/-! Weighted selection. -/

/-- The cumulative weight of the first `m` selections. -/
def sumTake (ss : List Selection) (m : Nat) : Int :=
  ((ss.take m).map (fun s => s.weight)).sum

/-- The weighted loop never falls through to the raise branch when the draw
is below the remaining total. -/
theorem selectLoop_isSome (ss : List Selection) :
    ∀ (off r : Int), off ≤ r → r < off + (ss.map (fun s => s.weight)).sum →
      (selectLoop ss off r).isSome = true := by
  induction ss with
  | nil =>
      intro off r h1 h2
      simp at h2
      omega
  | cons s rest ih =>
      intro off r h1 h2
      rw [List.map_cons, List.sum_cons] at h2
      by_cases hb : r < off + s.weight
      · simp [selectLoop, hb]
      · rw [selectLoop, if_neg hb]
        exact ih (off + s.weight) r (by omega) (by omega)

/-- The weighted loop returns the selection at the first index whose
cumulative weight exceeds the draw. -/
theorem selectLoop_first (ss : List Selection) :
    ∀ (j : Nat) (off r : Int) (hj : j < ss.length),
      (∀ s ∈ ss, 0 ≤ s.weight) →
      off + sumTake ss j ≤ r → r < off + sumTake ss (j + 1) →
      selectLoop ss off r = some (ss.get ⟨j, hj⟩).server := by
  induction ss with
  | nil =>
      intro j off r hj
      exact absurd hj (by simp)
  | cons s rest ih =>
      intro j off r hj hw hle hlt
      cases j with
      | zero =>
          have hb : r < off + s.weight := by
            have : sumTake (s :: rest) 1 = s.weight := by
              simp [sumTake]
            rw [this] at hlt
            exact hlt
          simp [selectLoop, hb]
      | succ j =>
          have hcum : sumTake (s :: rest) (j + 1) = s.weight + sumTake rest j := by
            simp [sumTake]
          have hcum2 : sumTake (s :: rest) (j + 2) = s.weight + sumTake rest (j + 1) := by
            simp [sumTake]
          have hpos : 0 ≤ sumTake rest j := by
            refine List.sum_nonneg ?_
            intro a ha
            obtain ⟨t, ht, rfl⟩ := List.mem_map.mp ha
            exact hw t (List.mem_cons_of_mem s (List.mem_of_mem_take ht))
          have hb : ¬ r < off + s.weight := by
            rw [hcum] at hle
            omega
          rw [selectLoop, if_neg hb]
          have := ih j (off + s.weight) r (Nat.lt_of_succ_lt_succ hj)
            (fun t ht => hw t (List.mem_cons_of_mem s ht))
            (by rw [hcum] at hle; omega) (by rw [hcum2] at hlt; omega)
          simpa using this

/-- Claim C7 (confirmed): for a non-empty upstream with weights `≥ 1`, the
uniform branch of `select()` maps the uniform index draw to exactly that
server (so the pick is uniformly random over the selections); otherwise,
for a draw `r ∈ [0, total)`, it returns the server of the first selection
in insertion order whose cumulative weight exceeds `r`, and the
`has no upstream` exception branch is unreachable. -/
theorem upstream_select_spec (ss : List Selection)
    (_h1 : ss ≠ []) (h2 : ∀ s ∈ ss, 1 ≤ s.weight) :
    (∀ i (hi : i < ss.length),
       (mkUpstream ss).selectUniform i = some (ss.get ⟨i, hi⟩).server) ∧
    (∀ r : Int, 0 ≤ r → r < (mkUpstream ss).total →
       ((mkUpstream ss).selectWeighted r).isSome = true) ∧
    (∀ r : Int, ∀ j (hj : j < ss.length),
       sumTake ss j ≤ r → r < sumTake ss (j + 1) →
       (mkUpstream ss).selectWeighted r = some (ss.get ⟨j, hj⟩).server) := by
  refine ⟨?_, ?_, ?_⟩
  · intro i hi
    show (List.get? ss i).map (fun s => s.server) = _
    rw [List.get?_eq_get hi]
    rfl
  · intro r hr0 hrt
    exact selectLoop_isSome ss 0 r hr0 (by simpa [mkUpstream] using hrt)
  · intro r j hj hle hlt
    exact selectLoop_first ss j 0 r hj
      (fun s hs => le_trans (by norm_num) (h2 s hs))
      (by simpa using hle) (by simpa using hlt)

/-- Witness for C7 at the upstream `http://a,1 http://b,3` (draw 0 selects
`a`, draw 1 falls in `b`'s band). -/
theorem upstream_select_spec_witness :
    (mkUpstream [⟨("http", "a"), 1⟩, ⟨("http", "b"), 3⟩]).selectUniform 0 = some ("http", "a") ∧
    ((mkUpstream [⟨("http", "a"), 1⟩, ⟨("http", "b"), 3⟩]).selectWeighted 0).isSome = true ∧
    (mkUpstream [⟨("http", "a"), 1⟩, ⟨("http", "b"), 3⟩]).selectWeighted 1 = some ("http", "b") := by
  have h := upstream_select_spec [⟨("http", "a"), 1⟩, ⟨("http", "b"), 3⟩]
    (by decide) (by intro s hs; fin_cases hs <;> decide)
  exact ⟨h.1 0 (by decide), h.2.1 0 (by decide) (by decide),
    h.2.2 1 1 (by decide) (by decide) (by decide)⟩

/-! Rules claims: first-match and the error policy. -/

/-- `Rules._match` walked from any index with no evaluation errors and
non-empty upstreams returns the spec-side first match and disables
nothing. -/
theorem rulesMatchAux_ok (mode : ErrMode) (dis : Nat → Bool) :
    ∀ (l : List MRule) (i : Nat) (acc : List Nat),
      (∀ r ∈ l, isOkResult r.result = true) →
      (∀ r ∈ l, r.upstream.selections.isEmpty = false) →
      rulesMatchAux mode dis l i acc = .ok (specFirstMatch dis l i, acc) := by
  intro l
  induction l with
  | nil => intro i acc _ _; rfl
  | cons r rest ih =>
      intro i acc hok hup
      have hokr : isOkResult r.result = true := hok r (List.mem_cons_self r rest)
      have hupr : r.upstream.selections.isEmpty = false := hup r (List.mem_cons_self r rest)
      have hokrest : ∀ x ∈ rest, isOkResult x.result = true :=
        fun x hx => hok x (List.mem_cons_of_mem r hx)
      have huprest : ∀ x ∈ rest, x.upstream.selections.isEmpty = false :=
        fun x hx => hup x (List.mem_cons_of_mem r hx)
      simp only [rulesMatchAux, specFirstMatch]
      cases hd : dis i with
      | true =>
          simp only [if_pos rfl]
          exact ih (i + 1) acc hokrest huprest
      | false =>
          simp only [Bool.false_eq_true, if_false]
          cases hres : r.result with
          | ok b =>
              cases b with
              | true => simp [hupr]
              | false => exact ih (i + 1) acc hokrest huprest
          | error e =>
              rw [hres] at hokr
              exact Bool.noConfusion hokr

/-- The spec-side first match from index `i` is `none` exactly when every
rule of the suffix is disabled or does not evaluate true. -/
theorem specFirstMatch_none_iff (dis : Nat → Bool) :
    ∀ (l : List MRule) (i : Nat),
      specFirstMatch dis l i = Option.none ↔
        ∀ j (hj : j < l.length), dis (i + j) = true ∨ (l.get ⟨j, hj⟩).result ≠ .ok true := by
  intro l
  induction l with
  | nil =>
      intro i
      constructor
      · intro _ j hj
        exact absurd hj (by simp)
      · intro _
        rfl
  | cons r rest ih =>
      intro i
      rw [specFirstMatch]
      cases hd : dis i with
      | true =>
          simp only
          rw [ih (i + 1)]
          constructor
          · intro hall j hj
            cases j with
            | zero => exact Or.inl (by simpa using hd)
            | succ j =>
                have := hall j (Nat.lt_of_succ_lt_succ hj)
                rw [show i + 1 + j = i + (j + 1) by omega] at this
                simpa using this
          · intro hall j hj
            have := hall (j + 1) (Nat.succ_lt_succ hj)
            rw [show i + (j + 1) = i + 1 + j by omega] at this
            simpa using this
      | false =>
          cases hres : r.result with
          | ok b =>
              cases b with
              | true =>
                  simp only
                  constructor
                  · intro h
                    exact Option.noConfusion h
                  · intro hall
                    have := hall 0 (by simp)
                    rcases this with h | h
                    · rw [Nat.add_zero] at h
                      rw [h] at hd
                      exact Bool.noConfusion hd
                    · exact absurd (by simpa using hres) h
              | false =>
                  simp only
                  rw [ih (i + 1)]
                  constructor
                  · intro hall j hj
                    cases j with
                    | zero =>
                        refine Or.inr ?_
                        simp [hres]
                    | succ j =>
                        have := hall j (Nat.lt_of_succ_lt_succ hj)
                        rw [show i + 1 + j = i + (j + 1) by omega] at this
                        simpa using this
                  · intro hall j hj
                    have := hall (j + 1) (Nat.succ_lt_succ hj)
                    rw [show i + (j + 1) = i + 1 + j by omega] at this
                    simpa using this
          | error e =>
              simp only
              rw [ih (i + 1)]
              constructor
              · intro hall j hj
                cases j with
                | zero =>
                    refine Or.inr ?_
                    simp [hres]
                | succ j =>
                    have := hall j (Nat.lt_of_succ_lt_succ hj)
                    rw [show i + 1 + j = i + (j + 1) by omega] at this
                    simpa using this
              · intro hall j hj
                have := hall (j + 1) (Nat.succ_lt_succ hj)
                rw [show i + (j + 1) = i + 1 + j by omega] at this
                simpa using this

/-- Claim C5 (confirmed): when every rule's evaluation succeeds and every
upstream is non-empty (the data-model invariant), `Rules.match` — in any
error mode — returns the upstream of the earliest rule not in the disabled
set whose expression evaluates true, disables nothing, and returns null
exactly when no such rule exists. -/
theorem rules_first_match (mode : ErrMode) (dis : Nat → Bool) (rs : List MRule)
    (hok : ∀ r ∈ rs, isOkResult r.result = true)
    (hup : ∀ r ∈ rs, r.upstream.selections.isEmpty = false) :
    rulesMatch rs dis mode = .ok (specFirstMatch dis rs 0, []) ∧
    (specFirstMatch dis rs 0 = Option.none ↔
      ∀ j (hj : j < rs.length), dis j = true ∨ (rs.get ⟨j, hj⟩).result ≠ .ok true) := by
  constructor
  · exact rulesMatchAux_ok mode dis rs 0 [] hok hup
  · rw [specFirstMatch_none_iff dis rs 0]
    constructor
    · intro hall j hj
      have := hall j hj
      simpa using this
    · intro hall j hj
      have := hall j hj
      simpa using this

def upR0 : Upstream := mkUpstream [⟨("http", "r0"), 1⟩]

def upR1 : Upstream := mkUpstream [⟨("http", "r1"), 1⟩]

def upR2 : Upstream := mkUpstream [⟨("http", "r2"), 1⟩]

/-- Witness for C5: rule 0 evaluates false, rule 1 evaluates true but is
disabled, rule 2 evaluates true — the match returns rule 2's upstream. -/
theorem rules_first_match_witness :
    rulesMatch [⟨.ok false, upR0⟩, ⟨.ok true, upR1⟩, ⟨.ok true, upR2⟩]
      (fun j => j == 1) .suppress = .ok (some upR2, []) :=
  (rules_first_match .suppress (fun j => j == 1)
    [⟨.ok false, upR0⟩, ⟨.ok true, upR1⟩, ⟨.ok true, upR2⟩]
    (by intro r hr; fin_cases hr <;> rfl)
    (by intro r hr; fin_cases hr <;> rfl)).1

/-- Claim C3 counterexample: a rule whose evaluation raises a
`StandardError` (every built-in error — `TypeError`, `ValueError`, ... — is
one) aborts the loop even in `disable` mode: the exception propagates out of
`Rules._match` through the `except StandardError: raise` clause, the rule is
not inserted into the disabled set, and the following always-true rule is
never consulted. -/
theorem std_error_aborts_disable :
    rulesMatch [⟨.error .std, upR0⟩, ⟨.ok true, upR1⟩] (fun _ => false) .disable
      = .error .std ∧
    rulesMatch [⟨.error .std, upR0⟩, ⟨.ok true, upR1⟩] (fun _ => false) .disable
      ≠ .ok (some upR1, [0]) := by
  refine ⟨rfl, by decide⟩

/-- `Rules._match` under a non-`raise` mode with no `StandardError`s:
the result is the spec-side first match, and `disable` mode adds exactly the
non-disabled erroring rules encountered before it. -/
theorem rulesMatchAux_policy (mode : ErrMode) (dis : Nat → Bool)
    (hmode : mode ≠ ErrMode.raise) :
    ∀ (l : List MRule) (i : Nat) (acc : List Nat),
      (∀ r ∈ l, isStdErr r.result = false) →
      (∀ r ∈ l, r.upstream.selections.isEmpty = false) →
      rulesMatchAux mode dis l i acc =
        .ok (specFirstMatch dis l i,
             acc ++ (if mode = .disable then specErrsBefore dis l i else [])) := by
  intro l
  induction l with
  | nil =>
      intro i acc _ _
      simp [rulesMatchAux, specFirstMatch, specErrsBefore]
  | cons r rest ih =>
      intro i acc hstd hup
      have hstdr : isStdErr r.result = false := hstd r (List.mem_cons_self r rest)
      have hupr : r.upstream.selections.isEmpty = false := hup r (List.mem_cons_self r rest)
      have hstdrest : ∀ x ∈ rest, isStdErr x.result = false :=
        fun x hx => hstd x (List.mem_cons_of_mem r hx)
      have huprest : ∀ x ∈ rest, x.upstream.selections.isEmpty = false :=
        fun x hx => hup x (List.mem_cons_of_mem r hx)
      simp only [rulesMatchAux, specFirstMatch, specErrsBefore]
      cases hd : dis i with
      | true =>
          simp only [if_pos rfl]
          exact ih (i + 1) acc hstdrest huprest
      | false =>
          simp only [Bool.false_eq_true, if_false]
          cases hres : r.result with
          | ok b =>
              cases b with
              | true => simp [hupr]
              | false => exact ih (i + 1) acc hstdrest huprest
          | error e =>
              cases e with
              | std =>
                  rw [hres] at hstdr
                  exact Bool.noConfusion hstdr
              | nonStd =>
                  cases mode with
                  | raise => exact absurd rfl hmode
                  | disable =>
                      simp only
                      rw [ih (i + 1) (acc ++ [i]) hstdrest huprest]
                      simp
                  | suppress =>
                      simp only
                      rw [ih (i + 1) acc hstdrest huprest]
                      simp

/-- Claim C3 amended: `Rules.match`'s error policy applies only to
exceptions that are **not** Python 2 `StandardError`s — a `StandardError`
raised while evaluating a rule propagates in every mode via the
`except StandardError: raise` clause.  For other exceptions: `raise`
propagates; `disable` logs, inserts exactly the non-disabled erroring rules
visited before the first match into the disabled set, and continues;
`suppress` logs and continues, disabling nothing.  The default mode is
`disable` iff `auto_disable` is set, else `suppress`. -/
theorem rules_error_policy (mode : ErrMode) (dis : Nat → Bool) (rs : List MRule)
    (hmode : mode ≠ ErrMode.raise)
    (hstd : ∀ r ∈ rs, isStdErr r.result = false)
    (hup : ∀ r ∈ rs, r.upstream.selections.isEmpty = false) :
    rulesMatch rs dis mode =
      .ok (specFirstMatch dis rs 0,
           if mode = .disable then specErrsBefore dis rs 0 else []) ∧
    (∀ (mode2 : ErrMode) (dis2 : Nat → Bool) (r : MRule) (rest : List MRule),
       dis2 0 = false → r.result = .error .std →
       rulesMatch (r :: rest) dis2 mode2 = .error .std) ∧
    (∀ (dis2 : Nat → Bool) (r : MRule) (rest : List MRule) (e : PyExc),
       dis2 0 = false → r.result = .error e →
       rulesMatch (r :: rest) dis2 .raise = .error e) ∧
    defaultErrMode true = .disable ∧ defaultErrMode false = .suppress := by
  refine ⟨?_, ?_, ?_, rfl, rfl⟩
  · have := rulesMatchAux_policy mode dis hmode rs 0 [] hstd hup
    simpa [rulesMatch] using this
  · intro mode2 dis2 r rest h0 hres
    rw [rulesMatch]
    simp [rulesMatchAux, h0, hres]
  · intro dis2 r rest e h0 hres
    rw [rulesMatch]
    cases e <;> simp [rulesMatchAux, h0, hres]

/-- Witness for C3's amended theorem: in `disable` mode a non-standard
evaluation error on rule 1 is skipped and disabled, rule 2 still matches;
and a `StandardError` on the first rule propagates even in `suppress`
mode. -/
theorem rules_error_policy_witness :
    rulesMatch [⟨.ok false, upR0⟩, ⟨.error .nonStd, upR1⟩, ⟨.ok true, upR2⟩]
      (fun _ => false) .disable = .ok (some upR2, [1]) ∧
    rulesMatch [⟨.error .std, upR0⟩] (fun _ => false) .suppress = .error .std := by
  have h := rules_error_policy .disable (fun _ => false)
    [⟨.ok false, upR0⟩, ⟨.error .nonStd, upR1⟩, ⟨.ok true, upR2⟩]
    (by decide)
    (by intro r hr; fin_cases hr <;> rfl)
    (by intro r hr; fin_cases hr <;> rfl)
  exact ⟨h.1, h.2.1 .suppress (fun _ => false) ⟨.error .std, upR0⟩ [] rfl rfl⟩

/-! Router claims. -/

/-- Claim C9 (confirmed): `load`, `save` and `watch` raise
`RouterNotConnected` whenever the router is not in the connected state, and
`connect` raises `RouterNotDynamic` whenever `dynamic` is unset or the
backend's `can_connect` reports false; in each failing case the router is
returned unchanged. -/
theorem router_connection_errors {P : Type} (act : Router P → Router P) (r : Router P) :
    (r.isConnected = false →
       Router.load act r = (some RouterErr.notConnected, r) ∧
       r.save = (some RouterErr.notConnected, r) ∧
       r.watch = (some RouterErr.notConnected, r)) ∧
    ((r.dynamic = Option.none ∨ ∃ d, r.dynamic = some d ∧ d.canConnect = false) →
       Router.connect act r = (some RouterErr.notDynamic, r)) := by
  constructor
  · intro h
    refine ⟨?_, ?_, ?_⟩ <;> simp [Router.load, Router.save, Router.watch, h]
  · intro h
    have hd : r.isDynamic = false := by
      rcases h with h | ⟨d, hd, hc⟩
      · simp [Router.isDynamic, h]
      · simp [Router.isDynamic, hd, hc]
    simp [Router.connect, hd]

def routerDisc : Router Unit := ⟨"r", Option.none, ()⟩

/-- Witness for C9 at a concrete router with no dynamic configured. -/
theorem router_connection_errors_witness :
    Router.load id routerDisc = (some RouterErr.notConnected, routerDisc) ∧
    routerDisc.save = (some RouterErr.notConnected, routerDisc) ∧
    routerDisc.watch = (some RouterErr.notConnected, routerDisc) ∧
    Router.connect id routerDisc = (some RouterErr.notDynamic, routerDisc) := by
  have h := router_connection_errors (P := Unit) id routerDisc
  exact ⟨(h.1 rfl).1, (h.1 rfl).2.1, (h.1 rfl).2.2, h.2 (Or.inl rfl)⟩

end Rump
